import Mathlib

/-!
Verification of the fog-flight arcade game (`rudolfgame`).

Each JavaScript component relevant to the specification's claims is shallowly
embedded as Lean definitions: pure computations become Lean functions, the
stateful singletons (`ShakeDetection`, `TouchControls`, `ChimneySystem`,
`TiltControls`, `Levels`) become explicit state records with step functions,
and `setTimeout`-based timers become explicit deadlines fired by an explicit
time-advancing function.  Wall-clock times (`Date.now()`) are modelled as
integers (milliseconds), geometric coordinates as rationals or reals.

The JavaScript comparison `Math.sqrt(d2) < b` on exact inputs is embedded by
the decidable helper `sqrtLtQ d2 b` together with the proved bridge lemma
`sqrtLtQ_iff`, so every executable definition stays computable while claims
can still be stated with the real square-root distance.
-/

/-- Decidable embedding of the comparison `Math.sqrt d2 < b` over exact
rational inputs: for a nonnegative radicand this holds iff `b` is positive
and `d2 < b * b` (see `sqrtLtQ_iff`). -/
def sqrtLtQ (d2 b : ℚ) : Bool :=
  decide (0 < b) && decide (d2 < b * b)

/-- Bridge lemma: `sqrtLtQ` decides exactly the real comparison
`Real.sqrt d2 < b`, for every rational `d2` and `b`. -/
theorem sqrtLtQ_iff (d2 b : ℚ) :
    sqrtLtQ d2 b = true ↔ Real.sqrt (d2 : ℝ) < (b : ℝ) := by
  unfold sqrtLtQ
  rcases le_or_lt b 0 with hb | hb
  · constructor
    · intro h
      simp only [Bool.and_eq_true, decide_eq_true_eq] at h
      exact absurd h.1 (not_lt.mpr hb)
    · intro h
      exact absurd (lt_of_le_of_lt (Real.sqrt_nonneg _) h)
        (not_lt.mpr (by exact_mod_cast hb))
  · have hb' : (0 : ℝ) < (b : ℝ) := by exact_mod_cast hb
    rw [Real.sqrt_lt' hb']
    simp only [Bool.and_eq_true, decide_eq_true_eq]
    constructor
    · intro h
      have := h.2
      have : ((d2 : ℝ)) < (b : ℝ) * (b : ℝ) := by exact_mod_cast this
      calc (d2 : ℝ) < (b : ℝ) * (b : ℝ) := this
        _ = (b : ℝ) ^ 2 := by ring
    · intro h
      refine ⟨hb, ?_⟩
      have : (d2 : ℝ) < (b : ℝ) * (b : ℝ) := by
        calc (d2 : ℝ) < (b : ℝ) ^ 2 := h
          _ = (b : ℝ) * (b : ℝ) := by ring
      exact_mod_cast this

namespace FogSystem

/-- A visibility hole (`FogSystem.addVisibilityHole`).  Only the geometric
fields are modelled: the `temporary` / `expiry` bookkeeping is not read by
the two point queries the claims are about. -/
structure Hole where
  x : ℝ
  y : ℝ
  radius : ℝ

/-- Distance from `(x, y)` to the center of a hole, exactly as computed in
`isPointVisible` / `getVisibilityAt`:
`dx = x - hole.x; dy = y - hole.y; distance = Math.sqrt(dx*dx + dy*dy)`. -/
noncomputable def holeDist (h : Hole) (x y : ℝ) : ℝ :=
  Real.sqrt ((x - h.x) * (x - h.x) + (y - h.y) * (y - h.y))

/-- FogSystem.isPointVisible: iterate over `this.visibilityHoles`, returning
`true` as soon as `distance < hole.radius * 0.8`, and `false` when the loop
finishes without a hit. -/
def isPointVisible (holes : List Hole) (x y : ℝ) : Prop :=
  match holes with
  | [] => False
  | h :: rest => holeDist h x y < h.radius * 0.8 ∨ isPointVisible rest x y

open Classical

/-- Loop body of FogSystem.getVisibilityAt: the running `maxVisibility`
accumulator starts at `0`; every hole with `distance < hole.radius`
contributes `1 - distance / hole.radius` through `Math.max`. -/
noncomputable def visLoop (x y : ℝ) : List Hole → ℝ → ℝ
  | [], maxVisibility => maxVisibility
  | h :: rest, maxVisibility =>
      visLoop x y rest
        (if holeDist h x y < h.radius then
          max maxVisibility (1 - holeDist h x y / h.radius)
        else maxVisibility)

/-- FogSystem.getVisibilityAt: visibility level at a point
(0 = hidden, 1 = fully visible). -/
noncomputable def getVisibilityAt (holes : List Hole) (x y : ℝ) : ℝ :=
  visLoop x y holes 0

theorem isPointVisible_iff (holes : List Hole) (x y : ℝ) :
    isPointVisible holes x y ↔ ∃ h ∈ holes, holeDist h x y < 0.8 * h.radius := by
  induction holes with
  | nil => simp [isPointVisible]
  | cons h rest ih =>
      simp only [isPointVisible, ih, List.mem_cons]
      constructor
      · rintro (hd | ⟨g, hg, hlt⟩)
        · exact ⟨h, Or.inl rfl, by linarith [hd]⟩
        · exact ⟨g, Or.inr hg, hlt⟩
      · rintro ⟨g, (rfl | hg), hlt⟩
        · exact Or.inl (by linarith [hlt])
        · exact Or.inr ⟨g, hg, hlt⟩

theorem visLoop_acc_le (x y : ℝ) (holes : List Hole) (acc : ℝ) :
    acc ≤ visLoop x y holes acc := by
  induction holes generalizing acc with
  | nil => simp [visLoop]
  | cons h rest ih =>
      simp only [visLoop]
      split
      · exact le_trans (le_max_left _ _) (ih _)
      · exact ih _

theorem visLoop_le_of_mem (x y : ℝ) (holes : List Hole) (acc : ℝ)
    (h : Hole) (hmem : h ∈ holes) (hlt : holeDist h x y < h.radius) :
    1 - holeDist h x y / h.radius ≤ visLoop x y holes acc := by
  induction holes generalizing acc with
  | nil => cases hmem
  | cons g rest ih =>
      rcases List.mem_cons.mp hmem with rfl | hmem'
      · simp only [visLoop, if_pos hlt]
        exact le_trans (le_max_right _ _) (visLoop_acc_le x y rest _)
      · simp only [visLoop]
        split
        · exact ih _ hmem'
        · exact ih _ hmem'

theorem visLoop_attained (x y : ℝ) (holes : List Hole) (acc : ℝ) :
    visLoop x y holes acc = acc ∨
      ∃ h ∈ holes, holeDist h x y < h.radius ∧
        visLoop x y holes acc = 1 - holeDist h x y / h.radius := by
  induction holes generalizing acc with
  | nil => exact Or.inl rfl
  | cons g rest ih =>
      simp only [visLoop]
      by_cases hg : holeDist g x y < g.radius
      · rw [if_pos hg]
        rcases ih (max acc (1 - holeDist g x y / g.radius)) with heq | ⟨h, hmem, hlt, heq⟩
        · rcases le_total (1 - holeDist g x y / g.radius) acc with hle | hle
          · exact Or.inl (by rw [heq, max_eq_left hle])
          · exact Or.inr ⟨g, List.mem_cons_self _ _, hg,
              by rw [heq, max_eq_right hle]⟩
        · exact Or.inr ⟨h, List.mem_cons_of_mem _ hmem, hlt, heq⟩
      · rw [if_neg hg]
        rcases ih acc with heq | ⟨h, hmem, hlt, heq⟩
        · exact Or.inl heq
        · exact Or.inr ⟨h, List.mem_cons_of_mem _ hmem, hlt, heq⟩

theorem falloff_pos (h : Hole) (x y : ℝ) (hlt : holeDist h x y < h.radius) :
    0 < 1 - holeDist h x y / h.radius := by
  have hd : 0 ≤ holeDist h x y := Real.sqrt_nonneg _
  have hr : 0 < h.radius := lt_of_le_of_lt hd hlt
  have : holeDist h x y / h.radius < 1 := (div_lt_one hr).mpr hlt
  linarith

/-- C2: the fog point query `isPointVisible` answers true exactly when some
hole's center lies within `0.8 ×` its radius of the point, and
`getVisibilityAt` is the maximum linear falloff `1 - distance / radius` over
the holes whose radius exceeds the distance (and `0` when no hole
qualifies): it vanishes when no hole qualifies, dominates every qualifying
hole's falloff, and is attained by some qualifying hole whenever one
exists. -/
theorem fog_queries_spec (holes : List Hole) (x y : ℝ) :
    (isPointVisible holes x y ↔ ∃ h ∈ holes, holeDist h x y < 0.8 * h.radius)
    ∧ ((∀ h ∈ holes, ¬ holeDist h x y < h.radius) →
        getVisibilityAt holes x y = 0)
    ∧ (∀ h ∈ holes, holeDist h x y < h.radius →
        1 - holeDist h x y / h.radius ≤ getVisibilityAt holes x y)
    ∧ ((∃ h ∈ holes, holeDist h x y < h.radius) →
        ∃ h ∈ holes, holeDist h x y < h.radius ∧
          getVisibilityAt holes x y = 1 - holeDist h x y / h.radius) := by
  refine ⟨isPointVisible_iff holes x y, ?_, ?_, ?_⟩
  · intro hnone
    rcases visLoop_attained x y holes 0 with heq | ⟨h, hmem, hlt, _⟩
    · exact heq
    · exact absurd hlt (hnone h hmem)
  · intro h hmem hlt
    exact visLoop_le_of_mem x y holes 0 h hmem hlt
  · rintro ⟨h, hmem, hlt⟩
    rcases visLoop_attained x y holes 0 with heq | ⟨g, hgmem, hglt, hgeq⟩
    · have hub := visLoop_le_of_mem x y holes 0 h hmem hlt
      have := falloff_pos h x y hlt
      rw [getVisibilityAt] at *
      linarith
    · exact ⟨g, hgmem, hglt, hgeq⟩

/-- Concrete witness for C2: a single hole of radius 1 centered at the
origin makes the origin visible, and its visibility amount is 1. -/
theorem fog_queries_spec_witness :
    isPointVisible [⟨0, 0, 1⟩] 0 0 ∧ getVisibilityAt [⟨0, 0, 1⟩] 0 0 = 1 := by
  have hd : holeDist ⟨0, 0, 1⟩ 0 0 = 0 := by
    simp [holeDist]
  constructor
  · exact (fog_queries_spec [⟨0, 0, 1⟩] 0 0).1.mpr
      ⟨⟨0, 0, 1⟩, List.mem_singleton_self _, by rw [hd]; norm_num⟩
  · rcases (fog_queries_spec [⟨0, 0, 1⟩] 0 0).2.2.2
        ⟨⟨0, 0, 1⟩, List.mem_singleton_self _, by rw [hd]; norm_num⟩ with
      ⟨h, hmem, _, heq⟩
    rcases List.mem_singleton.mp hmem with rfl
    rw [heq, hd]
    norm_num

end FogSystem

namespace ShakeDetection

/-- Acceleration sample fed to `handleMotion`. -/
structure Accel where
  x : ℚ
  y : ℚ
  z : ℚ

/-- Mutable state of the `ShakeDetection` singleton.  The two
`setTimeout` callbacks (`shakeCountTimer`, `overheatTimer`) are modelled as
explicit deadlines (`shakeCountResetAt`, `overheatEndAt`) fired by
`fireTimers` once the wall clock reaches them. -/
structure State where
  enabled : Bool
  sensitivity : ℚ
  charges : ℤ
  lastShake : ℤ
  isOverheated : Bool
  shakeCount : ℕ
  shakeCountResetAt : Option ℤ
  overheatEndAt : Option ℤ
  lastAcceleration : Accel
  accelerationBuffer : List ℚ

/-- Cooldown between accepted shakes (`cooldown: 2000`). -/
def cooldown : ℤ := 2000

/-- Maximum boost charges (`maxCharges: 3`). -/
def maxCharges : ℤ := 3

/-- Overheat penalty duration (`overheatDuration: 5000`). -/
def overheatDuration : ℤ := 5000

/-- Rolling window after which `shakeCount` resets (`shakeCountWindow: 3000`). -/
def shakeCountWindow : ℤ := 3000

/-- Accepted shakes within the window before overheat (`maxRapidShakes: 5`). -/
def maxRapidShakes : ℕ := 5

/-- Acceleration smoothing buffer size (`bufferSize: 5`). -/
def bufferSize : ℕ := 5

/-- Initial field values of the `ShakeDetection` object literal (with the
detector enabled, as during play). -/
def init : State where
  enabled := true
  sensitivity := 15
  charges := 3
  lastShake := 0
  isOverheated := false
  shakeCount := 0
  shakeCountResetAt := none
  overheatEndAt := none
  lastAcceleration := ⟨0, 0, 0⟩
  accelerationBuffer := []

/-- Fire any due `setTimeout` callback: the `shakeCountTimer` zeroes
`shakeCount` once `shakeCountWindow` has elapsed since the last accepted
trigger, and the `overheatTimer` clears `isOverheated` once
`overheatDuration` has elapsed since the overheat began. -/
def fireTimers (s : State) (now : ℤ) : State :=
  let s1 :=
    match s.shakeCountResetAt with
    | some d => if d ≤ now then { s with shakeCount := 0, shakeCountResetAt := none } else s
    | none => s
  match s1.overheatEndAt with
  | some d =>
      if d ≤ now then { s1 with isOverheated := false, overheatEndAt := none } else s1
  | none => s1

/-- ShakeDetection.overheat: enter the overheated state, zero the rapid
counter, and schedule recovery after `overheatDuration`. -/
def overheat (s : State) (now : ℤ) : State :=
  { s with isOverheated := true, shakeCount := 0,
           overheatEndAt := some (now + overheatDuration) }

/-- ShakeDetection.triggerShake: record the shake time, spend a charge,
bump the rapid counter (re-arming its reset timer), and overheat when the
counter reaches `maxRapidShakes`. -/
def triggerShake (s : State) (now : ℤ) : State :=
  let s1 := { s with lastShake := now, charges := s.charges - 1,
                     shakeCount := s.shakeCount + 1,
                     shakeCountResetAt := some (now + shakeCountWindow) }
  if maxRapidShakes ≤ s1.shakeCount then overheat s1 now else s1

/-- ShakeDetection.manualTrigger: reject when disabled or overheated;
accept only when the cooldown has elapsed and a charge remains. -/
def manualTrigger (s : State) (now : ℤ) : State :=
  if !s.enabled || s.isOverheated then s
  else if cooldown < now - s.lastShake ∧ 0 < s.charges then triggerShake s now
  else s

/-- ShakeDetection.handleMotion: reject when disabled or overheated;
otherwise smooth the L1 acceleration delta over the ring buffer and trigger
a shake when the averaged delta beats the sensitivity threshold, the
cooldown has elapsed, and a charge remains. -/
def handleMotion (s : State) (a : Accel) (now : ℤ) : State :=
  if !s.enabled || s.isOverheated then s
  else
    let totalDelta := |a.x - s.lastAcceleration.x| + |a.y - s.lastAcceleration.y|
      + |a.z - s.lastAcceleration.z|
    let buffer0 := s.accelerationBuffer ++ [totalDelta]
    let buffer := if bufferSize < buffer0.length then buffer0.tail else buffer0
    let avgDelta := buffer.sum / (buffer.length : ℚ)
    let s1 := { s with accelerationBuffer := buffer, lastAcceleration := a }
    if s.sensitivity < avgDelta ∧ cooldown < now - s.lastShake then
      if 0 < s.charges then triggerShake s1 now else s1
    else s1

/-- ShakeDetection.canBoost. -/
def canBoost (s : State) (now : ℤ) : Bool :=
  decide (0 < s.charges) && !s.isOverheated && decide (cooldown < now - s.lastShake)


theorem fireTimers_quiet (s : State) (now : ℤ)
    (h1 : ∀ d, s.shakeCountResetAt = some d → now < d)
    (h2 : ∀ d, s.overheatEndAt = some d → now < d) :
    fireTimers s now = s := by
  unfold fireTimers
  rcases hr : s.shakeCountResetAt with _ | d1
  · rcases ho : s.overheatEndAt with _ | d2
    · simp [hr, ho]
    · simp [hr, ho, not_le.mpr (h2 d2 ho)]
  · rcases ho : s.overheatEndAt with _ | d2
    · simp [hr, ho, not_le.mpr (h1 d1 hr)]
    · simp [hr, ho, not_le.mpr (h1 d1 hr), not_le.mpr (h2 d2 ho)]

theorem manualTrigger_accept (s : State) (now : ℤ)
    (he : s.enabled = true) (ho : s.isOverheated = false)
    (hc : cooldown < now - s.lastShake) (hch : 0 < s.charges) :
    manualTrigger s now = triggerShake s now := by
  unfold manualTrigger
  rw [he, ho]
  simp [hc, hch]

theorem manualTrigger_reject (s : State) (now : ℤ)
    (h : ¬(cooldown < now - s.lastShake ∧ 0 < s.charges)) :
    manualTrigger s now = s := by
  unfold manualTrigger
  rw [if_neg h, ite_self]

theorem triggerShake_eq (s : State) (now : ℤ)
    (h : s.shakeCount + 1 < maxRapidShakes) :
    triggerShake s now =
      { s with lastShake := now, charges := s.charges - 1,
               shakeCount := s.shakeCount + 1,
               shakeCountResetAt := some (now + shakeCountWindow) } := by
  unfold triggerShake
  rw [if_neg]
  exact not_le.mpr h

theorem triggerShake_overheats (s : State) (now : ℤ)
    (h : maxRapidShakes ≤ s.shakeCount + 1) :
    triggerShake s now =
      { s with lastShake := now, charges := s.charges - 1,
               shakeCount := 0,
               shakeCountResetAt := some (now + shakeCountWindow),
               isOverheated := true,
               overheatEndAt := some (now + overheatDuration) } := by
  unfold triggerShake overheat
  rw [if_pos h]

/-- C3: from a fresh state (3 charges, no prior accepted trigger, detector
enabled) at any session start time later than the 2000 ms cooldown, a boost
trigger at relative time 0 is accepted leaving 2 charges, a second trigger
500 ms later is rejected leaving the state unchanged, and a third trigger
2001 ms after the first is accepted leaving 1 charge. -/
theorem boost_trigger_scenario (t0 : ℤ) (ht : cooldown < t0) :
    let s1 := manualTrigger (fireTimers init t0) t0
    let s2 := manualTrigger (fireTimers s1 (t0 + 500)) (t0 + 500)
    let s3 := manualTrigger (fireTimers s2 (t0 + 2001)) (t0 + 2001)
    s1.charges = 2 ∧ s1.lastShake = t0 ∧
    s2 = s1 ∧
    s3.charges = 1 ∧ s3.lastShake = t0 + 2001 := by
  intro s1 s2 s3
  have hcool : cooldown = 2000 := rfl
  rw [hcool] at ht
  have h0 : fireTimers init t0 = init :=
    fireTimers_quiet _ _ (by intro d hd; cases hd) (by intro d hd; cases hd)
  have h1 : s1 = ⟨true, 15, 2, t0, false, 1, some (t0 + 3000), none, ⟨0, 0, 0⟩, []⟩ := by
    show manualTrigger (fireTimers init t0) t0 = _
    rw [h0, manualTrigger_accept init t0 rfl rfl (by show (2000:ℤ) < t0 - 0; omega)
      (by decide), triggerShake_eq init t0 (by decide)]
    rfl
  have h2 : s2 = s1 := by
    show manualTrigger (fireTimers s1 (t0 + 500)) (t0 + 500) = s1
    rw [h1, fireTimers_quiet _ _ (by rintro d ⟨rfl⟩; omega) (by intro d hd; cases hd),
      manualTrigger_reject _ _
        (by show ¬((2000:ℤ) < t0 + 500 - t0 ∧ (0:ℤ) < 2); rintro ⟨hlt, -⟩; omega)]
  have h3 : s3 = ⟨true, 15, 1, t0 + 2001, false, 2, some (t0 + 2001 + 3000), none,
      ⟨0, 0, 0⟩, []⟩ := by
    show manualTrigger (fireTimers s2 (t0 + 2001)) (t0 + 2001) = _
    rw [h2, h1, fireTimers_quiet _ _ (by rintro d ⟨rfl⟩; omega) (by intro d hd; cases hd),
      manualTrigger_accept _ _ rfl rfl (by show (2000:ℤ) < t0 + 2001 - t0; omega)
      (by show (0:ℤ) < 2; decide),
      triggerShake_eq _ _ (by show 1 + 1 < maxRapidShakes; decide)]
    rfl
  refine ⟨?_, ?_, h2, ?_, ?_⟩
  · rw [h1]
  · rw [h1]
  · rw [h3]
  · rw [h3]

/-- Witness for C3 at the concrete session start time 2001. -/
theorem boost_trigger_scenario_witness :
    let s1 := manualTrigger (fireTimers init 2001) 2001
    let s2 := manualTrigger (fireTimers s1 (2001 + 500)) (2001 + 500)
    let s3 := manualTrigger (fireTimers s2 (2001 + 2001)) (2001 + 2001)
    s1.charges = 2 ∧ s1.lastShake = 2001 ∧
    s2 = s1 ∧
    s3.charges = 1 ∧ s3.lastShake = 2001 + 2001 :=
  boost_trigger_scenario 2001 (by norm_num [cooldown])


/-- C4: accepting a trigger that brings the rapid-shake counter to
`maxRapidShakes` flips `isOverheated` and schedules recovery exactly
`overheatDuration` (5000 ms) later; while overheated, both the manual and
the sensor trigger paths reject with the whole state unchanged, whatever
the charges or cooldown; and the overheat flag stays set strictly before
the recovery deadline and is cleared from the deadline on. -/
theorem overheat_spec :
    (∀ (s : State) (now : ℤ), s.enabled = true → s.isOverheated = false →
      4 ≤ s.shakeCount → cooldown < now - s.lastShake → 0 < s.charges →
      (manualTrigger s now).isOverheated = true ∧
      (manualTrigger s now).overheatEndAt = some (now + overheatDuration))
    ∧ (∀ (s : State) (now : ℤ), s.isOverheated = true → manualTrigger s now = s)
    ∧ (∀ (s : State) (a : Accel) (now : ℤ), s.isOverheated = true →
        handleMotion s a now = s)
    ∧ (∀ (s : State) (d t : ℤ), s.isOverheated = true → s.overheatEndAt = some d →
        (t < d → (fireTimers s t).isOverheated = true) ∧
        (d ≤ t → (fireTimers s t).isOverheated = false)) := by
  refine ⟨?_, ?_, ?_, ?_⟩
  · intro s now he ho hcount hcool hch
    rw [manualTrigger_accept s now he ho hcool hch,
      triggerShake_overheats s now (by simp [maxRapidShakes]; omega)]
    exact ⟨rfl, rfl⟩
  · intro s now ho
    unfold manualTrigger
    rw [ho]
    simp
  · intro s a now ho
    unfold handleMotion
    rw [ho]
    simp
  · intro s d t ho hd
    constructor
    · intro hlt
      have hnle : ¬ d ≤ t := not_le.mpr hlt
      unfold fireTimers
      rcases hr : s.shakeCountResetAt with _ | d1
      · simp [hr, hd, hnle, ho]
      · by_cases h1 : d1 ≤ t
        · simp [hr, hd, h1, hnle, ho]
        · simp [hr, hd, h1, hnle, ho]
    · intro hle
      unfold fireTimers
      rcases hr : s.shakeCountResetAt with _ | d1
      · simp [hr, hd, hle]
      · by_cases h1 : d1 ≤ t
        · simp [hr, hd, h1, hle]
        · simp [hr, hd, h1, hle]

/-- A state one rapid trigger away from overheating: 4 shakes counted in
the rolling window, one charge left, cooldown elapsed at time 2500. -/
def rapidState : State :=
  ⟨true, 15, 1, 0, false, 4, some 3000, none, ⟨0, 0, 0⟩, []⟩

/-- An overheated state whose recovery deadline is 7500 (overheat began at
2500), with full charges, so only the overheat flag blocks triggers. -/
def overheatedState : State :=
  ⟨true, 15, 3, 0, true, 0, none, some 7500, ⟨0, 0, 0⟩, []⟩

/-- Witness for C4: the fifth rapid trigger at time 2500 overheats until
7500; the overheated state rejects manual and sensor triggers unchanged at
time 2600 despite charges and elapsed cooldown; the flag is still set at
7499 and cleared at 7500. -/
theorem overheat_spec_witness :
    (manualTrigger rapidState 2500).isOverheated = true ∧
    (manualTrigger rapidState 2500).overheatEndAt = some 7500 ∧
    manualTrigger overheatedState 2600 = overheatedState ∧
    handleMotion overheatedState ⟨100, 0, 0⟩ 2600 = overheatedState ∧
    (fireTimers overheatedState 7499).isOverheated = true ∧
    (fireTimers overheatedState 7500).isOverheated = false := by
  have h1 := overheat_spec.1 rapidState 2500 rfl rfl (by decide)
    (by show cooldown < 2500 - 0; decide) (by decide)
  refine ⟨h1.1, ?_, overheat_spec.2.1 overheatedState 2600 rfl,
    overheat_spec.2.2.1 overheatedState ⟨100, 0, 0⟩ 2600 rfl,
    (overheat_spec.2.2.2 overheatedState 7500 7499 rfl rfl).1 (by norm_num),
    (overheat_spec.2.2.2 overheatedState 7500 7500 rfl rfl).2 le_rfl⟩
  rw [h1.2]
  norm_num [overheatDuration]

end ShakeDetection

namespace ChimneySystem

/-- Chimney record created by `spawnChimneys`.  The rendering-only fields
`glowPhase` and `houseStyle` are omitted: no embedded operation reads
them. -/
structure Chimney where
  x : ℚ
  y : ℚ
  width : ℚ
  height : ℚ
  delivered : Bool
  visible : Bool
  spotted : Bool
  missed : Bool

/-- Chimney dimensions (`chimneyWidth: 40`, `chimneyHeight: 50`). -/
def chimneyWidth : ℚ := 40

/-- See `chimneyWidth`. -/
def chimneyHeight : ℚ := 50

/-- Minimum distance between chimneys (`minSpawnDistance: 150`). -/
def minSpawnDistance : ℚ := 150

/-- Margin from screen edges (`spawnMargin: 80`). -/
def spawnMargin : ℚ := 80

/-- Tap hit-area expansion (`hitPadding = 20` in `checkTap`). -/
def hitPadding : ℚ := 20

/-- Mutable state of the `ChimneySystem` instance. -/
structure SysState where
  width : ℚ
  height : ℚ
  chimneys : List Chimney
  deliveredCount : ℕ
  missedCount : ℕ
  totalRequired : ℕ

/-- Squared distance between two points; the JS code compares
`Math.sqrt` of this against thresholds, embedded via `sqrtLtQ`. -/
def distSq (x1 y1 x2 y2 : ℚ) : ℚ :=
  (x1 - x2) * (x1 - x2) + (y1 - y2) * (y1 - y2)

/-- ChimneySystem.isValidPosition: a candidate point is valid when its
distance to every already-placed chimney is not below
`minSpawnDistance`. -/
def isValidPosition (x y : ℚ) (chimneys : List Chimney) : Bool :=
  chimneys.all fun c => !(sqrtLtQ (distSq x y c.x c.y) minSpawnDistance)

/-- A freshly spawned chimney. -/
def mkChimney (x y : ℚ) : Chimney :=
  ⟨x, y, chimneyWidth, chimneyHeight, false, false, false, false⟩

/-- Placement loop of `spawnChimneys`: for attempt index `i` with `fuel`
attempts remaining (starting from `count * 20`), while fewer than `count`
chimneys are placed, draw a uniform point inside the margin-inset
rectangle from the random stream `rand` and keep it if valid.  `rand i`
models the pair of `Math.random()` calls of attempt `i`. -/
def spawnLoop (rand : ℕ → ℚ × ℚ) (width height : ℚ) (count : ℕ) :
    ℕ → ℕ → List Chimney → List Chimney
  | _, 0, acc => acc
  | i, fuel + 1, acc =>
      if acc.length < count then
        let x := spawnMargin + (rand i).1 * (width - spawnMargin * 2)
        let y := spawnMargin + (rand i).2 * (height - spawnMargin * 2)
        if isValidPosition x y acc then
          spawnLoop rand width height count (i + 1) fuel (acc ++ [mkChimney x y])
        else
          spawnLoop rand width height count (i + 1) fuel acc
      else acc

/-- ChimneySystem.spawnChimneys: reset the per-level counters, set
`totalRequired` to the requested count, and run the bounded placement
loop with `count * 20` attempts. -/
def spawnChimneys (rand : ℕ → ℚ × ℚ) (s : SysState) (count : ℕ) : SysState :=
  { s with chimneys := spawnLoop rand s.width s.height count 0 (count * 20) [],
           deliveredCount := 0, missedCount := 0, totalRequired := count }

/-- Separation relation asserted between placed chimneys: real distance at
least `minSpawnDistance`. -/
def Separated (a b : Chimney) : Prop :=
  (minSpawnDistance : ℝ) ≤ Real.sqrt ((distSq a.x a.y b.x b.y : ℚ) : ℝ)

theorem distSq_nonneg (x1 y1 x2 y2 : ℚ) : 0 ≤ distSq x1 y1 x2 y2 := by
  unfold distSq
  have a := mul_self_nonneg (x1 - x2)
  have b := mul_self_nonneg (y1 - y2)
  linarith

theorem distSq_comm (x1 y1 x2 y2 : ℚ) :
    distSq x1 y1 x2 y2 = distSq x2 y2 x1 y1 := by
  unfold distSq
  ring

theorem isValidPosition_iff (x y : ℚ) (cs : List Chimney) :
    isValidPosition x y cs = true ↔
      ∀ c ∈ cs, (minSpawnDistance : ℝ) ≤ Real.sqrt ((distSq x y c.x c.y : ℚ) : ℝ) := by
  unfold isValidPosition
  rw [List.all_eq_true]
  constructor
  · intro h c hc
    have := h c hc
    rw [Bool.not_eq_true'] at this
    have hlt := (not_iff_not.mpr (sqrtLtQ_iff (distSq x y c.x c.y) minSpawnDistance)).mp
      (by rw [this]; exact Bool.false_ne_true)
    exact le_of_not_lt hlt
  · intro h c hc
    rw [Bool.not_eq_true']
    by_contra hne
    have : sqrtLtQ (distSq x y c.x c.y) minSpawnDistance = true := by
      cases hb : sqrtLtQ (distSq x y c.x c.y) minSpawnDistance
      · exact absurd hb hne
      · rfl
    exact absurd ((sqrtLtQ_iff _ _).mp this) (not_lt.mpr (h c hc))


theorem spawnLoop_length_le (rand : ℕ → ℚ × ℚ) (w h : ℚ) (count : ℕ)
    (fuel i : ℕ) (acc : List Chimney) (hacc : acc.length ≤ count) :
    (spawnLoop rand w h count i fuel acc).length ≤ count := by
  induction fuel generalizing i acc with
  | zero => simpa [spawnLoop] using hacc
  | succ n ih =>
      simp only [spawnLoop]
      split
      · split
        · apply ih
          rw [List.length_append]
          simp only [List.length_singleton]
          omega
        · exact ih _ _ hacc
      · exact hacc

theorem spawnLoop_pairwise (rand : ℕ → ℚ × ℚ) (w h : ℚ) (count : ℕ)
    (fuel i : ℕ) (acc : List Chimney) (hacc : acc.Pairwise Separated) :
    (spawnLoop rand w h count i fuel acc).Pairwise Separated := by
  induction fuel generalizing i acc with
  | zero => simpa [spawnLoop] using hacc
  | succ n ih =>
      simp only [spawnLoop]
      split
      · split
        · rename_i hv
          apply ih
          rw [List.pairwise_append]
          refine ⟨hacc, List.pairwise_singleton _ _, ?_⟩
          intro a ha b hb
          rw [List.mem_singleton] at hb
          subst hb
          have := (isValidPosition_iff _ _ acc).mp hv a ha
          unfold Separated
          rw [distSq_comm]
          exact this
        · exact ih _ _ hacc
      · exact hacc

theorem spawnLoop_congr (rand rand' : ℕ → ℚ × ℚ) (w h : ℚ) (count : ℕ)
    (fuel i : ℕ) (acc : List Chimney)
    (hr : ∀ j, i ≤ j → j < i + fuel → rand j = rand' j) :
    spawnLoop rand w h count i fuel acc = spawnLoop rand' w h count i fuel acc := by
  induction fuel generalizing i acc with
  | zero => simp [spawnLoop]
  | succ n ih =>
      simp only [spawnLoop]
      rw [hr i le_rfl (by omega)]
      split
      · split
        · exact ih _ _ fun j h1 h2 => hr j (by omega) (by omega)
        · exact ih _ _ fun j h1 h2 => hr j (by omega) (by omega)
      · rfl

theorem spawnLoop_not_delivered (rand : ℕ → ℚ × ℚ) (w h : ℚ) (count : ℕ)
    (fuel i : ℕ) (acc : List Chimney) (hacc : ∀ c ∈ acc, c.delivered = false) :
    ∀ c ∈ spawnLoop rand w h count i fuel acc, c.delivered = false := by
  induction fuel generalizing i acc with
  | zero => simpa [spawnLoop] using hacc
  | succ n ih =>
      simp only [spawnLoop]
      split
      · split
        · apply ih
          intro c hc
          rcases List.mem_append.mp hc with hc | hc
          · exact hacc c hc
          · rw [List.mem_singleton] at hc
            subst hc
            rfl
        · exact ih _ _ hacc
      · exact hacc

/-- C5 (amended): `spawnChimneys` places at most `count` chimneys; the
placed chimneys are pairwise separated by a real distance of at least the
minimum separation 150 (not strictly more: exact equality is accepted, see
the counterexample); a placement attempt is accepted exactly when its
distance to every already-placed chimney is at least 150; and the outcome
depends only on the first `count * 20` draws of the random stream, i.e. at
most `count * 20` placement attempts are performed. -/
theorem spawnChimneys_spec (rand rand' : ℕ → ℚ × ℚ) (s : SysState) (count : ℕ) :
    (spawnChimneys rand s count).chimneys.length ≤ count
    ∧ (spawnChimneys rand s count).chimneys.Pairwise Separated
    ∧ (∀ x y cs, isValidPosition x y cs = true ↔
        ∀ c ∈ cs, (minSpawnDistance : ℝ) ≤ Real.sqrt ((distSq x y c.x c.y : ℚ) : ℝ))
    ∧ ((∀ i < count * 20, rand i = rand' i) →
        spawnChimneys rand s count = spawnChimneys rand' s count) := by
  refine ⟨spawnLoop_length_le _ _ _ _ _ _ _ (by simp),
    spawnLoop_pairwise _ _ _ _ _ _ _ (List.Pairwise.nil),
    isValidPosition_iff, ?_⟩
  intro hr
  unfold spawnChimneys
  rw [spawnLoop_congr rand rand' s.width s.height count (count * 20) 0 []
    fun j h1 h2 => hr j (by omega)]

/-- Witness for C5: with a single requested chimney, two random streams
agreeing on the first 20 attempts produce identical spawns. -/
theorem spawnChimneys_spec_witness :
    spawnChimneys (fun _ => ((1 : ℚ) / 2, (1 : ℚ) / 2)) ⟨400, 400, [], 0, 0, 0⟩ 1 =
      spawnChimneys (fun i => if i < 20 then ((1 : ℚ) / 2, (1 : ℚ) / 2) else (0, 0))
        ⟨400, 400, [], 0, 0, 0⟩ 1 :=
  (spawnChimneys_spec (fun _ => ((1 : ℚ) / 2, (1 : ℚ) / 2))
    (fun i => if i < 20 then ((1 : ℚ) / 2, (1 : ℚ) / 2) else (0, 0))
    ⟨400, 400, [], 0, 0, 0⟩ 1).2.2.2
    (by intro i hi; rw [if_pos (by simpa using hi)])

/-- Random stream driving the counterexample spawn: attempt 0 lands at
(80, 80) and every later attempt at (230, 80). -/
def cexRand : ℕ → ℚ × ℚ :=
  fun i => if i = 0 then (0, 0) else (15 / 22, 0)

theorem spawnLoop_succ_eq (rand : ℕ → ℚ × ℚ) (w h : ℚ) (count fuel i : ℕ)
    (acc : List Chimney) :
    spawnLoop rand w h count i (fuel + 1) acc =
      if acc.length < count then
        if isValidPosition (spawnMargin + (rand i).1 * (w - spawnMargin * 2))
            (spawnMargin + (rand i).2 * (h - spawnMargin * 2)) acc = true then
          spawnLoop rand w h count (i + 1) fuel
            (acc ++ [mkChimney (spawnMargin + (rand i).1 * (w - spawnMargin * 2))
              (spawnMargin + (rand i).2 * (h - spawnMargin * 2))])
        else spawnLoop rand w h count (i + 1) fuel acc
      else acc := by
  simp only [spawnLoop]

theorem spawnLoop_exit (rand : ℕ → ℚ × ℚ) (w h : ℚ) (count fuel i : ℕ)
    (acc : List Chimney) (hlen : ¬ acc.length < count) :
    spawnLoop rand w h count i fuel acc = acc := by
  cases fuel with
  | zero => rfl
  | succ n =>
      simp only [spawnLoop]
      rw [if_neg hlen]

theorem spawnLoop_stuck (rand : ℕ → ℚ × ℚ) (w h : ℚ) (count : ℕ)
    (fuel i : ℕ) (acc : List Chimney)
    (hv : ∀ j, isValidPosition (spawnMargin + (rand j).1 * (w - spawnMargin * 2))
        (spawnMargin + (rand j).2 * (h - spawnMargin * 2)) acc = false) :
    spawnLoop rand w h count i fuel acc = acc := by
  induction fuel generalizing i with
  | zero => rfl
  | succ n ih =>
      rw [spawnLoop_succ_eq]
      split
      · rw [if_neg (by rw [hv i]; exact Bool.false_ne_true), ih]
      · rfl

/-- C5 counterexample: on a 380 × 200 field the stream `cexRand` places two
chimneys at real distance exactly 150, so the claim that pairwise distances
strictly exceed the minimum separation (and that acceptance requires
strictly exceeding it) is refuted: distance equal to 150 is accepted. -/
theorem spawn_separation_not_strict :
    ((spawnChimneys cexRand ⟨380, 200, [], 0, 0, 0⟩ 2).chimneys.map
        fun c => (c.x, c.y)) = [(80, 80), (230, 80)]
    ∧ Real.sqrt ((distSq 80 80 230 80 : ℚ) : ℝ) = 150
    ∧ ¬ (minSpawnDistance : ℝ) < Real.sqrt ((distSq 80 80 230 80 : ℚ) : ℝ) := by
  have hsq : Real.sqrt ((distSq 80 80 230 80 : ℚ) : ℝ) = 150 := by
    have h1 : ((distSq 80 80 230 80 : ℚ) : ℝ) = 150 ^ 2 := by
      norm_num [distSq]
    rw [h1, Real.sqrt_sq (by norm_num : (0 : ℝ) ≤ 150)]
  have hchs : (spawnChimneys cexRand ⟨380, 200, [], 0, 0, 0⟩ 2).chimneys =
      [mkChimney 80 80, mkChimney 230 80] := by
    show spawnLoop cexRand 380 200 2 0 (2 * 20) [] = _
    have e1 : spawnLoop cexRand 380 200 2 0 (39 + 1) [] =
        spawnLoop cexRand 380 200 2 1 39 [mkChimney 80 80] := by
      rw [spawnLoop_succ_eq, if_pos (by norm_num), if_pos (by rfl)]
      norm_num [cexRand, spawnMargin]
    have e2 : spawnLoop cexRand 380 200 2 1 (38 + 1) [mkChimney 80 80] =
        spawnLoop cexRand 380 200 2 2 38 [mkChimney 80 80, mkChimney 230 80] := by
      rw [spawnLoop_succ_eq, if_pos (by norm_num),
        if_pos (by norm_num [cexRand, isValidPosition, mkChimney, sqrtLtQ, distSq,
          minSpawnDistance, spawnMargin])]
      norm_num [cexRand, spawnMargin]
    have e3 : spawnLoop cexRand 380 200 2 2 38 [mkChimney 80 80, mkChimney 230 80] =
        [mkChimney 80 80, mkChimney 230 80] :=
      spawnLoop_exit _ _ _ _ _ _ _ (by norm_num)
    show spawnLoop cexRand 380 200 2 0 (39 + 1) [] = _
    rw [e1]
    show spawnLoop cexRand 380 200 2 1 (38 + 1) [mkChimney 80 80] = _
    rw [e2, e3]
  rw [hchs]
  refine ⟨?_, hsq, ?_⟩
  · simp [mkChimney]
  · rw [hsq]
    norm_num [minSpawnDistance]


/-- Bounding box returned by ChimneySystem.getChimneyBounds. -/
structure Bounds where
  x : ℚ
  y : ℚ
  width : ℚ
  height : ℚ

/-- ChimneySystem.getChimneyBounds: box of the chimney's width/height
centered on its position. -/
def getChimneyBounds (c : Chimney) : Bounds :=
  ⟨c.x - c.width / 2, c.y - c.height / 2, c.width, c.height⟩

/-- Hit test of ChimneySystem.checkTap: the chimney's bounds expanded by
`hitPadding` on every side contain the tap point. -/
def inHitBox (c : Chimney) (x y : ℚ) : Bool :=
  let bounds := getChimneyBounds c
  decide (bounds.x - hitPadding ≤ x) &&
  decide (x ≤ bounds.x + bounds.width + hitPadding) &&
  decide (bounds.y - hitPadding ≤ y) &&
  decide (y ≤ bounds.y + bounds.height + hitPadding)

/-- A chimney matches a tap when it is neither delivered nor missed, is
currently visible, and its expanded hit box contains the tap point
(the loop of `checkTap` skips the rest). -/
def eligibleHit (c : Chimney) (x y : ℚ) : Bool :=
  (!c.delivered && !c.missed && c.visible) && inHitBox c x y

/-- Value returned by ChimneySystem.deliverPresent, extended with whether
the `onAllDelivered` callback fired during the delivery. -/
structure TapResult where
  points : ℕ
  isPerfect : Bool
  allDelivered : Bool

/-- Loop of ChimneySystem.checkTap over the chimney array in spawn order:
the first chimney matching the tap is delivered in place and returned. -/
def checkTapGo (x y : ℚ) : List Chimney → Option (List Chimney × Chimney)
  | [] => none
  | c :: rest =>
      if eligibleHit c x y then
        some ({ c with delivered := true } :: rest, c)
      else
        match checkTapGo x y rest with
        | some (rest', hit) => some (c :: rest', hit)
        | none => none

/-- ChimneySystem.checkTap combined with deliverPresent: deliver the first
matching chimney, bump `deliveredCount`, classify the delivery as perfect
when the tap-to-center distance is below 20, award 150 (perfect) or 100
(normal) points, and fire `onAllDelivered` when the incremented count
reaches `totalRequired`. -/
def checkTap (s : SysState) (x y : ℚ) : SysState × Option TapResult :=
  match checkTapGo x y s.chimneys with
  | none => (s, none)
  | some (chimneys', hit) =>
      let newCount := s.deliveredCount + 1
      let isPerfect := sqrtLtQ (distSq x y hit.x hit.y) 20
      ({ s with chimneys := chimneys', deliveredCount := newCount },
        some ⟨if isPerfect then 150 else 100, isPerfect,
          decide (s.totalRequired ≤ newCount)⟩)

/-- Number of delivered chimneys in a list. -/
def countDelivered (cs : List Chimney) : ℕ :=
  (cs.filter fun c => c.delivered).length

/-- Per-chimney body of ChimneySystem.update: for every chimney that is
neither delivered nor missed, refresh `visible` from the fog query at its
position (here an arbitrary per-index answer `vis`) and latch `spotted`.
The glow animation and haptics of `update` are presentation-only. -/
def updateVisGo (vis : ℕ → Bool) : ℕ → List Chimney → List Chimney
  | _, [] => []
  | i, c :: rest =>
      (if !c.delivered && !c.missed then
        { c with visible := vis i, spotted := c.spotted || vis i }
      else c) :: updateVisGo vis (i + 1) rest

/-- Fog-driven visibility refresh of ChimneySystem.update. -/
def updateVisibility (s : SysState) (vis : ℕ → Bool) : SysState :=
  { s with chimneys := updateVisGo vis 0 s.chimneys }

/-- Recursion of ChimneySystem.markMissed locating the chimney by index;
returns the updated list and whether a chimney was newly marked. -/
def markMissedGo : ℕ → List Chimney → List Chimney × Bool
  | _, [] => ([], false)
  | 0, c :: rest =>
      if c.delivered || c.missed then (c :: rest, false)
      else ({ c with missed := true } :: rest, true)
  | i + 1, c :: rest =>
      let r := markMissedGo i rest
      (c :: r.1, r.2)

/-- ChimneySystem.markMissed: idempotent miss marking (no-op when the
chimney is already delivered or missed). -/
def markMissed (s : SysState) (i : ℕ) : SysState :=
  let r := markMissedGo i s.chimneys
  { s with chimneys := r.1,
           missedCount := if r.2 then s.missedCount + 1 else s.missedCount }

/-- ChimneySystem.getRemainingCount. -/
def getRemainingCount (s : SysState) : ℕ :=
  s.totalRequired - s.deliveredCount

/-- External operations that can reach the chimney system during play:
tap resolution, the controller's miss policy, and the per-tick fog
visibility refresh. -/
inductive Op where
  | tap (x y : ℚ)
  | miss (i : ℕ)
  | vis (f : ℕ → Bool)

/-- One operation applied to the chimney system; the Boolean reports
whether `onAllDelivered` fired. -/
def step (s : SysState) : Op → SysState × Bool
  | Op.tap x y =>
      let r := checkTap s x y
      (r.1, match r.2 with
        | some res => res.allDelivered
        | none => false)
  | Op.miss i => (markMissed s i, false)
  | Op.vis f => (updateVisibility s f, false)

/-- Apply a sequence of operations, reporting whether `onAllDelivered`
ever fired. -/
def run (s : SysState) : List Op → SysState × Bool
  | [] => (s, false)
  | op :: ops =>
      let r := step s op
      let rest := run r.1 ops
      (rest.1, r.2 || rest.2)


theorem checkTapGo_none_iff (x y : ℚ) (cs : List Chimney) :
    checkTapGo x y cs = none ↔ ∀ c ∈ cs, eligibleHit c x y = false := by
  induction cs with
  | nil => simp [checkTapGo]
  | cons c rest ih =>
      simp only [checkTapGo]
      by_cases hc : eligibleHit c x y = true
      · rw [if_pos hc]
        constructor
        · intro h
          cases h
        · intro hall
          rw [hall c (List.mem_cons_self c rest)] at hc
          cases hc
      · rw [if_neg hc]
        rw [Bool.not_eq_true] at hc
        rcases hr : checkTapGo x y rest with _ | ⟨rest', hit'⟩
        · simp only [hr]
          constructor
          · intro _ d hd
            rcases List.mem_cons.mp hd with rfl | hd
            · exact hc
            · exact ih.mp hr d hd
          · intro _
            trivial
        · simp only [hr]
          constructor
          · intro h
            cases h
          · intro hall
            have hnone : checkTapGo x y rest = none :=
              ih.mpr fun d hd => hall d (List.mem_cons_of_mem c hd)
            rw [hnone] at hr
            cases hr

theorem checkTapGo_some (x y : ℚ) (cs cs' : List Chimney) (hit : Chimney)
    (h : checkTapGo x y cs = some (cs', hit)) :
    ∃ pre post, cs = pre ++ hit :: post ∧
      (∀ c ∈ pre, eligibleHit c x y = false) ∧
      eligibleHit hit x y = true ∧
      cs' = pre ++ { hit with delivered := true } :: post := by
  induction cs generalizing cs' with
  | nil => cases h
  | cons c rest ih =>
      simp only [checkTapGo] at h
      by_cases hc : eligibleHit c x y = true
      · rw [if_pos hc] at h
        injection h with h'
        injection h' with h1 h2
        subst h2
        refine ⟨[], rest, rfl, ?_, hc, ?_⟩
        · intro d hd
          cases hd
        · rw [← h1]
          rfl
      · rw [if_neg hc] at h
        rw [Bool.not_eq_true] at hc
        rcases hr : checkTapGo x y rest with _ | ⟨rest', hit'⟩
        · rw [hr] at h
          cases h
        · rw [hr] at h
          injection h with h'
          injection h' with h1 h2
          subst h2
          rcases ih rest' hr with ⟨pre, post, hsplit, hpre, hhit, hrest'⟩
          refine ⟨c :: pre, post, by rw [hsplit, List.cons_append], ?_, hhit, ?_⟩
          · intro d hd
            rcases List.mem_cons.mp hd with rfl | hd
            · exact hc
            · exact hpre d hd
          · rw [← h1, hrest', List.cons_append]

/-- C6: checkTap resolves a tap against the chimney array in spawn order,
testing only chimneys that are visible and neither delivered nor missed
against their 20 px-expanded bounding boxes: it returns nothing exactly
when no chimney matches, and on a match the first matching chimney (all
earlier chimneys fail the eligibility-plus-hit-box test) is marked
delivered, the delivered count is incremented, the delivery is perfect
exactly when the real tap-to-center distance is below 20, and a perfect
delivery awards 150 points while a normal one awards 100. -/
theorem checkTap_spec (s : SysState) (x y : ℚ) :
    ((checkTap s x y).2 = none ↔ ∀ c ∈ s.chimneys, eligibleHit c x y = false)
    ∧ (∀ res, (checkTap s x y).2 = some res →
        ∃ pre hit post,
          s.chimneys = pre ++ hit :: post ∧
          (∀ c ∈ pre, eligibleHit c x y = false) ∧
          eligibleHit hit x y = true ∧
          (checkTap s x y).1.chimneys = pre ++ { hit with delivered := true } :: post ∧
          (checkTap s x y).1.deliveredCount = s.deliveredCount + 1 ∧
          (res.isPerfect = true ↔ Real.sqrt ((distSq x y hit.x hit.y : ℚ) : ℝ) < 20) ∧
          res.points = if res.isPerfect = true then 150 else 100) := by
  rcases hgo : checkTapGo x y s.chimneys with _ | ⟨cs', hit⟩
  · constructor
    · constructor
      · intro _
        exact (checkTapGo_none_iff x y s.chimneys).mp hgo
      · intro _
        simp only [checkTap, hgo]
    · intro res hres
      simp only [checkTap, hgo] at hres
      cases hres
  · rcases checkTapGo_some x y s.chimneys cs' hit hgo with
      ⟨pre, post, hsplit, hpre, hhit, hcs'⟩
    constructor
    · constructor
      · intro h
        simp only [checkTap, hgo] at h
        cases h
      · intro hall
        have hfalse := hall hit (by rw [hsplit]; simp)
        rw [hfalse] at hhit
        exact Bool.noConfusion hhit
    · intro res hres
      simp only [checkTap, hgo] at hres
      injection hres with hres
      refine ⟨pre, hit, post, hsplit, hpre, hhit, ?_, ?_, ?_, ?_⟩
      · simp only [checkTap, hgo]
        exact hcs'
      · simp only [checkTap, hgo]
      · rw [← hres]
        exact sqrtLtQ_iff (distSq x y hit.x hit.y) 20
      · rw [← hres]


/-- A one-chimney state for the C6 witness: a visible chimney at
(100, 100), one delivery required. -/
def tapDemo : SysState :=
  ⟨400, 400, [⟨100, 100, 40, 50, false, true, false, false⟩], 0, 0, 1⟩

theorem tapDemo_result :
    (checkTap tapDemo 100 100).2 = some ⟨150, true, true⟩ := by
  have he : eligibleHit ⟨100, 100, 40, 50, false, true, false, false⟩ 100 100 = true := by
    norm_num [eligibleHit, inHitBox, getChimneyBounds, hitPadding]
  have hperf : sqrtLtQ (distSq 100 100 100 100) 20 = true := by
    norm_num [sqrtLtQ, distSq]
  simp only [checkTap, tapDemo, checkTapGo, he, if_pos, hperf]
  norm_num

/-- Witness for C6: tapping the exact center of the single visible chimney
of `tapDemo` delivers it with a perfect 150-point delivery. -/
theorem checkTap_spec_witness :
    ∃ pre hit post,
      tapDemo.chimneys = pre ++ hit :: post ∧
      (∀ c ∈ pre, eligibleHit c 100 100 = false) ∧
      eligibleHit hit 100 100 = true ∧
      (checkTap tapDemo 100 100).1.chimneys =
        pre ++ { hit with delivered := true } :: post ∧
      (checkTap tapDemo 100 100).1.deliveredCount = tapDemo.deliveredCount + 1 ∧
      ((⟨150, true, true⟩ : TapResult).isPerfect = true ↔
        Real.sqrt ((distSq 100 100 hit.x hit.y : ℚ) : ℝ) < 20) ∧
      (⟨150, true, true⟩ : TapResult).points =
        if (⟨150, true, true⟩ : TapResult).isPerfect = true then 150 else 100 :=
  (checkTap_spec tapDemo 100 100).2 ⟨150, true, true⟩ tapDemo_result


theorem countDelivered_cons (c : Chimney) (t : List Chimney) :
    countDelivered (c :: t) = (if c.delivered = true then 1 else 0) + countDelivered t := by
  unfold countDelivered
  rcases hc : c.delivered
  · simp [List.filter_cons, hc]
  · simp [List.filter_cons, hc]
    omega

theorem countDelivered_append (a b : List Chimney) :
    countDelivered (a ++ b) = countDelivered a + countDelivered b := by
  unfold countDelivered
  rw [List.filter_append, List.length_append]

theorem countDelivered_le_length (cs : List Chimney) :
    countDelivered cs ≤ cs.length :=
  List.length_filter_le _ _

theorem countDelivered_eq_zero (cs : List Chimney)
    (h : ∀ c ∈ cs, c.delivered = false) : countDelivered cs = 0 := by
  unfold countDelivered
  rw [List.length_eq_zero, List.filter_eq_nil_iff]
  intro a ha
  rw [h a ha]
  exact Bool.false_ne_true

theorem countDelivered_updateVisGo (vis : ℕ → Bool) (i : ℕ) (cs : List Chimney) :
    countDelivered (updateVisGo vis i cs) = countDelivered cs := by
  induction cs generalizing i with
  | nil => rfl
  | cons c rest ih =>
      show countDelivered (_ :: updateVisGo vis (i + 1) rest) = _
      rw [countDelivered_cons, countDelivered_cons, ih]
      have hd : (if !c.delivered && !c.missed then
          { c with visible := vis i, spotted := c.spotted || vis i }
        else c).delivered = c.delivered := by
        split
        · rfl
        · rfl
      rw [hd]

theorem length_updateVisGo (vis : ℕ → Bool) (i : ℕ) (cs : List Chimney) :
    (updateVisGo vis i cs).length = cs.length := by
  induction cs generalizing i with
  | nil => rfl
  | cons c rest ih =>
      show (_ :: updateVisGo vis (i + 1) rest).length = _
      rw [List.length_cons, List.length_cons, ih]

theorem markMissedGo_preserves (i : ℕ) (cs : List Chimney) :
    countDelivered (markMissedGo i cs).1 = countDelivered cs ∧
    (markMissedGo i cs).1.length = cs.length := by
  induction cs generalizing i with
  | nil => cases i <;> exact ⟨rfl, rfl⟩
  | cons c rest ih =>
      cases i with
      | zero =>
          simp only [markMissedGo]
          split
          · exact ⟨rfl, rfl⟩
          · constructor
            · rw [countDelivered_cons, countDelivered_cons]
            · rfl
      | succ n =>
          simp only [markMissedGo]
          constructor
          · rw [countDelivered_cons, countDelivered_cons, (ih n).1]
          · rw [List.length_cons, List.length_cons, (ih n).2]

/-- Invariant maintained by every chimney-system operation: the delivered
counter mirrors the number of delivered chimneys, and the chimney count
and required total are fixed. -/
def Inv (p count : ℕ) (s : SysState) : Prop :=
  s.deliveredCount = countDelivered s.chimneys ∧
  s.chimneys.length = p ∧ s.totalRequired = count

theorem step_preserves (p count : ℕ) (hp : p < count) (s : SysState) (op : Op)
    (h : Inv p count s) : Inv p count (step s op).1 ∧ (step s op).2 = false := by
  obtain ⟨hdc, hlen, htot⟩ := h
  cases op with
  | tap x y =>
      rcases hgo : checkTapGo x y s.chimneys with _ | ⟨cs', hit⟩
      · have hstep : step s (Op.tap x y) = (s, false) := by
          simp only [step, checkTap, hgo]
        rw [hstep]
        exact ⟨⟨hdc, hlen, htot⟩, rfl⟩
      · rcases checkTapGo_some x y s.chimneys cs' hit hgo with
          ⟨pre, post, hsplit, hpre, hhit, hcs'⟩
        have hhd : hit.delivered = false := by
          simp only [eligibleHit, Bool.and_eq_true, Bool.not_eq_true'] at hhit
          exact hhit.1.1.1
        have hcdS : countDelivered s.chimneys =
            countDelivered pre + countDelivered post := by
          rw [hsplit, countDelivered_append, countDelivered_cons, hhd]
          simp
        have hnew : countDelivered cs' = countDelivered s.chimneys + 1 := by
          rw [hcs', countDelivered_append, countDelivered_cons, hcdS]
          simp only [if_pos]
          omega
        have hlen' : cs'.length = s.chimneys.length := by
          rw [hcs', hsplit]
          simp
        have hb1 := countDelivered_le_length pre
        have hb2 := countDelivered_le_length post
        have hplen : pre.length + post.length + 1 = p := by
          rw [← hlen, hsplit]
          simp [List.length_append]
          omega
        have hstep : step s (Op.tap x y) =
            ({ s with chimneys := cs', deliveredCount := s.deliveredCount + 1 },
              decide (s.totalRequired ≤ s.deliveredCount + 1)) := by
          simp only [step, checkTap, hgo]
        rw [hstep]
        refine ⟨⟨?_, ?_, htot⟩, ?_⟩
        · show s.deliveredCount + 1 = countDelivered cs'
          rw [hnew, hdc]
        · show cs'.length = p
          rw [hlen', hlen]
        · rw [decide_eq_false]
          omega
  | miss i =>
      have hm := markMissedGo_preserves i s.chimneys
      refine ⟨⟨?_, ?_, htot⟩, rfl⟩
      · show s.deliveredCount = countDelivered (markMissedGo i s.chimneys).1
        rw [hm.1, hdc]
      · show (markMissedGo i s.chimneys).1.length = p
        rw [hm.2, hlen]
  | vis f =>
      refine ⟨⟨?_, ?_, htot⟩, rfl⟩
      · show s.deliveredCount = countDelivered (updateVisGo f 0 s.chimneys)
        rw [countDelivered_updateVisGo, hdc]
      · show (updateVisGo f 0 s.chimneys).length = p
        rw [length_updateVisGo, hlen]

theorem run_preserves (p count : ℕ) (hp : p < count) (ops : List Op) :
    ∀ s, Inv p count s → Inv p count (run s ops).1 ∧ (run s ops).2 = false := by
  induction ops with
  | nil =>
      intro s h
      exact ⟨h, rfl⟩
  | cons op ops ih =>
      intro s h
      have hs := step_preserves p count hp s op h
      have hr := ih (step s op).1 hs.1
      simp only [run]
      exact ⟨hr.1, by rw [hs.2, hr.2]; rfl⟩


/-- C10: when `spawnChimneys` places fewer chimneys than requested, no
sequence of taps, miss markings and fog-visibility refreshes can complete
the level: `totalRequired` stays at the requested count, the delivered
count never exceeds the number of chimneys actually placed, the remaining
count stays positive, and `onAllDelivered` never fires. -/
theorem underplacement_never_completes (rand : ℕ → ℚ × ℚ) (s0 : SysState)
    (count : ℕ) (ops : List Op)
    (hunder : (spawnChimneys rand s0 count).chimneys.length < count) :
    (run (spawnChimneys rand s0 count) ops).1.totalRequired = count ∧
    (run (spawnChimneys rand s0 count) ops).1.deliveredCount ≤
      (spawnChimneys rand s0 count).chimneys.length ∧
    0 < getRemainingCount (run (spawnChimneys rand s0 count) ops).1 ∧
    (run (spawnChimneys rand s0 count) ops).2 = false := by
  have hInv : Inv ((spawnChimneys rand s0 count).chimneys.length) count
      (spawnChimneys rand s0 count) := by
    refine ⟨?_, rfl, rfl⟩
    show (0 : ℕ) = countDelivered (spawnLoop rand s0.width s0.height count 0 (count * 20) [])
    exact (countDelivered_eq_zero _ (spawnLoop_not_delivered rand s0.width s0.height
      count (count * 20) 0 [] (by intro c hc; cases hc))).symm
  obtain ⟨⟨hdc, hlen, htot⟩, hfired⟩ :=
    run_preserves _ count hunder ops _ hInv
  have hble := countDelivered_le_length (run (spawnChimneys rand s0 count) ops).1.chimneys
  refine ⟨htot, ?_, ?_, hfired⟩
  · omega
  · unfold getRemainingCount
    omega

/-- Degenerate random stream for the C10 witness: the spawnable area of a
160 × 160 field is a single point, so every attempt lands on (80, 80). -/
def zeroRand : ℕ → ℚ × ℚ := fun _ => (0, 0)

theorem zeroRand_spawn :
    (spawnChimneys zeroRand ⟨160, 160, [], 0, 0, 0⟩ 2).chimneys = [mkChimney 80 80] := by
  show spawnLoop zeroRand 160 160 2 0 (2 * 20) [] = _
  show spawnLoop zeroRand 160 160 2 0 (39 + 1) [] = _
  rw [spawnLoop_succ_eq, if_pos (by norm_num), if_pos (by rfl)]
  have hlist : ([] : List Chimney) ++
      [mkChimney (spawnMargin + (zeroRand 0).1 * (160 - spawnMargin * 2))
        (spawnMargin + (zeroRand 0).2 * (160 - spawnMargin * 2))] = [mkChimney 80 80] := by
    norm_num [zeroRand, spawnMargin]
  rw [hlist]
  refine spawnLoop_stuck _ _ _ _ _ _ _ ?_
  intro j
  norm_num [zeroRand, spawnMargin, isValidPosition, mkChimney, sqrtLtQ, distSq,
    minSpawnDistance]

/-- Witness for C10: a level requesting 2 chimneys on the degenerate field
places only 1, and after a dead-center tap on it the completion signal has
still not fired. -/
theorem underplacement_never_completes_witness :
    (run (spawnChimneys zeroRand ⟨160, 160, [], 0, 0, 0⟩ 2) [Op.tap 80 80]).1.totalRequired = 2 ∧
    (run (spawnChimneys zeroRand ⟨160, 160, [], 0, 0, 0⟩ 2) [Op.tap 80 80]).1.deliveredCount ≤
      (spawnChimneys zeroRand ⟨160, 160, [], 0, 0, 0⟩ 2).chimneys.length ∧
    0 < getRemainingCount
      (run (spawnChimneys zeroRand ⟨160, 160, [], 0, 0, 0⟩ 2) [Op.tap 80 80]).1 ∧
    (run (spawnChimneys zeroRand ⟨160, 160, [], 0, 0, 0⟩ 2) [Op.tap 80 80]).2 = false :=
  underplacement_never_completes zeroRand ⟨160, 160, [], 0, 0, 0⟩ 2 [Op.tap 80 80]
    (by rw [zeroRand_spawn]; norm_num)

end ChimneySystem

namespace Levels

/-- One entry of `Levels.configs`.  The `hazards` and `description` fields
are presentation-only and omitted. -/
structure Config where
  id : ℕ
  name : String
  fog : String
  chimneys : ℤ
  time : ℤ
  powerups : ℤ
  unlocked : Bool

/-- The six authored level configurations. -/
def configs : List Config :=
  [⟨1, "Suburbs", "light", 5, 90, 3, true⟩,
   ⟨2, "City", "medium", 8, 80, 4, false⟩,
   ⟨3, "Mountains", "thick", 10, 75, 4, false⟩,
   ⟨4, "Blizzard", "heavy", 12, 70, 5, false⟩,
   ⟨5, "Arctic", "whiteout", 15, 60, 5, false⟩,
   ⟨6, "Nightmare", "whiteout", 20, 55, 6, false⟩]

/-- Out-of-range fallback for list indexing (never reached for level
numbers ≥ 1, the only ones the game produces). -/
def defaultConfig : Config := ⟨0, "", "", 0, 0, 0, false⟩

/-- Levels.getConfig: authored configs for levels 1–6; beyond them an
extrapolated nightmare config scaled from the fixed base values 15 / 60 / 6
(`Math.floor` on the positive power-up term coincides with integer
division). -/
def getConfig (levelNumber : ℕ) : Config :=
  if configs.length < levelNumber then
    let baseConfig := configs.getD (configs.length - 1) defaultConfig
    { baseConfig with
        id := levelNumber,
        name := "Nightmare " ++ toString (levelNumber - 5),
        chimneys := 15 + ((levelNumber : ℤ) - 5) * 2,
        time := max 45 (60 - ((levelNumber : ℤ) - 5) * 3),
        powerups := min 8 (6 + ((levelNumber : ℤ) - 5) / 2) }
  else configs.getD (min (levelNumber - 1) (configs.length - 1)) defaultConfig

/-- Levels.calculateBonus: total plus breakdown entries, accumulated in
source order. -/
structure BonusResult where
  total : ℤ
  breakdown : List (String × ℤ)

/-- Levels.calculateBonus. -/
def calculateBonus (timeLeft : ℤ)
    (allDelivered noBoosts sleighUntouched noRadar : Bool) : BonusResult :=
  let b1 : ℤ × List (String × ℤ) :=
    if 0 < timeLeft then (timeLeft * 10, [("Time Bonus", timeLeft * 10)])
    else (0, [])
  let b2 := if allDelivered = true then (b1.1 + 500, b1.2 ++ [("All Chimneys", 500)]) else b1
  let b3 := if noBoosts = true then (b2.1 + 200, b2.2 ++ [("No Boosts Used", 200)]) else b2
  let b4 := if sleighUntouched = true then
      (b3.1 + 300, b3.2 ++ [("Sleigh Untouched", 300)]) else b3
  let b5 := if noRadar = true then (b4.1 + 100, b4.2 ++ [("No Radar Used", 100)]) else b4
  ⟨b5.1, b5.2⟩

/-- Star computation of Levels.recordScore (the high-score map,
stars-earned map, unlock and save side effects are bookkeeping the claims
do not touch): one star for completing, a second for finishing with more
than 20 % of the level's time budget left, a third for a perfect run. -/
def recordScore (levelNumber : ℕ) (timeLeft : ℤ)
    (allDelivered noBoosts sleighUntouched noRadar : Bool) : ℕ :=
  let stars0 : ℕ := 0
  let stars1 := if allDelivered = true then stars0 + 1 else stars0
  let config := getConfig levelNumber
  let stars2 :=
    if allDelivered = true ∧ (config.time : ℚ) * 0.2 < (timeLeft : ℚ) then stars1 + 1
    else stars1
  let stars3 :=
    if allDelivered = true ∧ noBoosts = true ∧ sleighUntouched = true ∧ noRadar = true then
      stars2 + 1
    else stars2
  stars3

end Levels

namespace Game

/-- The Game fields read by `handleLevelComplete`. -/
structure GState where
  score : ℤ
  timer : ℚ
  boostsUsed : ℕ
  radarUsed : Bool
  sleighCollided : Bool
  currentLevel : ℕ

/-- Game.handleLevelComplete: ceil the remaining timer, add the completion
bonus to the running score, and compute the stars; returns the final score
and stars shown by `UI.showSuccess`. -/
def handleLevelComplete (g : GState) : ℤ × ℕ :=
  let timeLeft : ℤ := ⌈g.timer⌉
  let allDelivered := true
  let noBoosts := decide (g.boostsUsed = 0)
  let sleighUntouched := !g.sleighCollided
  let noRadar := !g.radarUsed
  let bonus := Levels.calculateBonus timeLeft allDelivered noBoosts sleighUntouched noRadar
  let score := g.score + bonus.total
  let stars := Levels.recordScore g.currentLevel timeLeft allDelivered noBoosts
    sleighUntouched noRadar
  (score, stars)

end Game

/-- C1 counterexample: in the exact claimed scenario (level with 5 targets
and a 90 s limit, completed with 12 s remaining, no boosts, no radar,
sleigh untouched, base score 500) the star count computed by the code is
2, not 3: the third increment requires, in addition to the perfect run,
the 2-star condition timeLeft > 20 % of the time limit (12 > 18 fails). -/
theorem level_complete_stars_counterexample :
    (Game.handleLevelComplete ⟨500, 12, 0, false, false, 1⟩).2 = 2 ∧
    (Game.handleLevelComplete ⟨500, 12, 0, false, false, 1⟩).2 ≠ 3 ∧
    (Levels.calculateBonus 12 true true true true).total = 1220 ∧
    (Game.handleLevelComplete ⟨500, 12, 0, false, false, 1⟩).1 = 500 + 1220 := by
  norm_num [Game.handleLevelComplete, Levels.recordScore, Levels.calculateBonus,
    Levels.getConfig, Levels.configs, Levels.defaultConfig]

/-- C1 (amended): for the level-1 config (5 targets, 90 s), completing
with 12 s remaining, zero boosts, zero radar uses and an untouched sleigh
yields a completion bonus of exactly 120 + 500 + 200 + 300 + 100 = 1220, a
final score equal to the base score plus 1220, and 2 stars (not 3, since
the cumulative star computation also requires more than 20 % of the time
budget remaining, i.e. more than 18 s). -/
theorem level_complete_scenario (base : ℤ) :
    (Levels.getConfig 1).chimneys = 5 ∧
    (Levels.getConfig 1).time = 90 ∧
    (Levels.calculateBonus 12 true true true true).total = 120 + 500 + 200 + 300 + 100 ∧
    (Game.handleLevelComplete ⟨base, 12, 0, false, false, 1⟩).1 = base + 1220 ∧
    (Game.handleLevelComplete ⟨base, 12, 0, false, false, 1⟩).2 = 2 := by
  norm_num [Game.handleLevelComplete, Levels.recordScore, Levels.calculateBonus,
    Levels.getConfig, Levels.configs, Levels.defaultConfig]

/-- C9 counterexample: the first extrapolated level (7) gets 19 chimneys,
below the 20 of the last authored entry, refuting the claim that the
extrapolated target count is at least the last authored entry's count:
the scaling restarts from the level-5 baseline of 15. -/
theorem getConfig_scaling_counterexample :
    (Levels.getConfig 7).chimneys = 19 ∧
    (Levels.getConfig 6).chimneys = 20 ∧
    (Levels.getConfig 7).chimneys < (Levels.getConfig 6).chimneys := by
  norm_num [Levels.getConfig, Levels.configs, Levels.defaultConfig]

/-- C9 (amended): every level beyond the six authored configs gets an
extrapolated config whose chimney count is `15 + 2·(n − 5)` (strictly
increasing in the level number, though starting below the last authored
entry's 20), whose time limit is strictly below the last authored entry's
and never below the floor of 45 s, and whose power-up count never exceeds
the ceiling of 8. -/
theorem getConfig_extrapolation (n : ℕ) (hn : 6 < n) :
    (Levels.getConfig n).chimneys = 15 + ((n : ℤ) - 5) * 2 ∧
    (Levels.getConfig n).chimneys < (Levels.getConfig (n + 1)).chimneys ∧
    45 ≤ (Levels.getConfig n).time ∧
    (Levels.getConfig n).time < (Levels.getConfig 6).time ∧
    (Levels.getConfig n).powerups ≤ 8 := by
  have hlen : Levels.configs.length = 6 := rfl
  have hchim : ∀ m : ℕ, 6 < m →
      (Levels.getConfig m).chimneys = 15 + ((m : ℤ) - 5) * 2 := by
    intro m hm
    unfold Levels.getConfig
    rw [hlen, if_pos hm]
  have htime : ∀ m : ℕ, 6 < m →
      (Levels.getConfig m).time = max 45 (60 - ((m : ℤ) - 5) * 3) := by
    intro m hm
    unfold Levels.getConfig
    rw [hlen, if_pos hm]
  have hpow : ∀ m : ℕ, 6 < m →
      (Levels.getConfig m).powerups = min 8 (6 + ((m : ℤ) - 5) / 2) := by
    intro m hm
    unfold Levels.getConfig
    rw [hlen, if_pos hm]
  have hcast : (7 : ℤ) ≤ (n : ℤ) := by exact_mod_cast hn
  refine ⟨hchim n hn, ?_, ?_, ?_, ?_⟩
  · rw [hchim n hn, hchim (n + 1) (by omega)]
    push_cast
    omega
  · rw [htime n hn]
    exact le_max_left _ _
  · rw [htime n hn]
    have h6 : (Levels.getConfig 6).time = 55 := rfl
    rw [h6]
    refine max_lt_iff.mpr ⟨by norm_num, by omega⟩
  · rw [hpow n hn]
    exact min_le_left _ _

/-- Witness for C9 at the first extrapolated level, 7. -/
theorem getConfig_extrapolation_witness :
    (Levels.getConfig 7).chimneys = 15 + ((7 : ℤ) - 5) * 2 ∧
    (Levels.getConfig 7).chimneys < (Levels.getConfig (7 + 1)).chimneys ∧
    45 ≤ (Levels.getConfig 7).time ∧
    (Levels.getConfig 7).time < (Levels.getConfig 6).time ∧
    (Levels.getConfig 7).powerups ≤ 8 :=
  getConfig_extrapolation 7 (by norm_num)

namespace TiltControls

/-- The TiltControls fields touched by calibration. -/
structure State where
  enabled : Bool
  gamma : ℚ
  beta : ℚ
  calibrationGamma : ℚ
  calibrationBeta : ℚ
  isCalibrated : Bool
  smoothedGamma : ℚ
  smoothedBeta : ℚ

/-- Number of calibration samples (`sampleCount = 30`). -/
def sampleCount : ℕ := 30

/-- The `takeSample` timeout chain of TiltControls.startCalibration:
`readings k` is the pair `(this.gamma, this.beta)` held by the object at
the k-th sampling tick (stale while input collection is disabled), and
`enabledAt k` is the enabled flag at that tick.  The chain is threaded
with `enabledAt` but never consults it: the source body of `takeSample`
contains no enabled check and no cancellation path, so every scheduled
tick takes its sample. -/
def takeSampleLoop (readings : ℕ → ℚ × ℚ) (enabledAt : ℕ → Bool) :
    ℕ → ℕ → List (ℚ × ℚ) → List (ℚ × ℚ)
  | _, 0, samples => samples
  | k, remaining + 1, samples =>
      takeSampleLoop readings enabledAt (k + 1) remaining (samples ++ [readings k])

/-- TiltControls.startCalibration (cross-device variant): the keyboard
fallback marks calibration done immediately; otherwise the sampling chain
runs to completion, outliers beyond ±80° are filtered, the remainder is
averaged into the calibration offset when nonempty, and `isCalibrated` is
set — unconditionally — at the end, with the smoothed values reset. -/
def startCalibration (readings : ℕ → ℚ × ℚ) (enabledAt : ℕ → Bool)
    (useFallback : Bool) (s : State) : State :=
  if useFallback then { s with isCalibrated := true }
  else
    let samples := takeSampleLoop readings enabledAt 0 sampleCount []
    let validSamples := samples.filter fun p => decide (|p.1| < 80) && decide (|p.2| < 80)
    let s1 :=
      if 0 < validSamples.length then
        { s with enabled := true,
                 calibrationGamma := (validSamples.map Prod.fst).sum / validSamples.length,
                 calibrationBeta := (validSamples.map Prod.snd).sum / validSamples.length }
      else { s with enabled := true }
    { s1 with isCalibrated := true, smoothedGamma := 0, smoothedBeta := 0 }

theorem takeSampleLoop_congr (readings : ℕ → ℚ × ℚ) (e e' : ℕ → Bool)
    (k remaining : ℕ) (samples : List (ℚ × ℚ)) :
    takeSampleLoop readings e k remaining samples =
      takeSampleLoop readings e' k remaining samples := by
  induction remaining generalizing k samples with
  | zero => rfl
  | succ n ih => exact ih _ _

/-- C7 is refuted by the code: the calibration run marks `isCalibrated`
whatever the enabled schedule is — in particular when input collection is
disabled before all 30 samples are taken — and its entire outcome is
independent of that schedule, because `takeSample` never checks `enabled`
and has no cancellation path. -/
theorem startCalibration_ignores_disable (readings : ℕ → ℚ × ℚ)
    (enabledAt enabledAt' : ℕ → Bool) (useFallback : Bool) (s : State) :
    (startCalibration readings enabledAt useFallback s).isCalibrated = true ∧
    startCalibration readings enabledAt useFallback s =
      startCalibration readings enabledAt' useFallback s := by
  constructor
  · unfold startCalibration
    split
    · rfl
    · rfl
  · unfold startCalibration
    rw [takeSampleLoop_congr readings enabledAt enabledAt']

/-- C7 failing input: calibration started with input collection disabled
from the 10th sampling tick on (only 10 of the 30 samples see live data);
the half-finished-then-stale run still completes and sets
`isCalibrated = true`, where the claim requires it to stay false. -/
theorem startCalibration_disable_failing :
    (startCalibration (fun _ => (10, 5)) (fun i => decide (i < 10)) false
        ⟨true, 10, 5, 0, 0, false, 3, 2⟩).isCalibrated = true :=
  (startCalibration_ignores_disable (fun _ => (10, 5)) (fun i => decide (i < 10))
    (fun _ => true) false ⟨true, 10, 5, 0, 0, false, 3, 2⟩).1

end TiltControls

namespace TouchControls

/-- Signals the tap/gesture layer can emit towards the Game callbacks. -/
inductive Emit where
  | tap (x y : ℚ)
  | doubleTap
  | holdEnd
deriving DecidableEq

/-- The TouchControls fields read or written by the press/release logic.
The hold `setTimeout` is modelled by `holdTimerActive` (armed flag); the
`activeTouches` map is modelled by its key set, since `endInteraction`
only ever deletes from it. -/
structure State where
  enabled : Bool
  lastTap : ℤ
  lastTapX : ℚ
  lastTapY : ℚ
  holdX : ℚ
  holdY : ℚ
  isHolding : Bool
  holdTimerActive : Bool
  lastRadar : ℤ
  activeTouches : List ℕ
  isMouseDown : Bool

/-- Double-tap window (`doubleTapThreshold: 300`). -/
def doubleTapThreshold : ℤ := 300

/-- Double-tap distance bound (`doubleTapDistance: 50`). -/
def doubleTapDistance : ℚ := 50

/-- Radar cooldown (`radarCooldown: 10000`). -/
def radarCooldown : ℤ := 10000

/-- Squared distance underlying TouchControls.getDistance (the code takes
`Math.sqrt`; comparisons are embedded via `sqrtLtQ`). -/
def getDistanceSq (x1 y1 x2 y2 : ℚ) : ℚ :=
  (x2 - x1) * (x2 - x1) + (y2 - y1) * (y2 - y1)

/-- TouchControls.startInteraction: record the hold origin, insert the
pointer id into the active set, and arm the hold timer. -/
def startInteraction (s : State) (x y : ℚ) (id : ℕ) : State :=
  { s with holdX := x, holdY := y,
           activeTouches := id :: s.activeTouches.erase id,
           holdTimerActive := true }

/-- TouchControls.cancelInteraction: disarm the hold timer, drop the hold
state, and clear all active touches. -/
def cancelInteraction (s : State) : State :=
  { s with holdTimerActive := false, isHolding := false, activeTouches := [] }

/-- TouchControls.handleDoubleTap: rate-limited radar trigger. -/
def handleDoubleTap (s : State) (now : ℤ) : State × List Emit :=
  if radarCooldown ≤ now - s.lastRadar then
    ({ s with lastRadar := now }, [Emit.doubleTap])
  else (s, [])

/-- TouchControls.endInteraction: clear the hold timer; finish a hold if
one was in progress; otherwise classify the release as double tap or
single tap — with no check that the released pointer id has a matching
entry in `activeTouches`. -/
def endInteraction (s : State) (x y : ℚ) (id : ℕ) (now : ℤ) : State × List Emit :=
  let s0 := { s with holdTimerActive := false }
  if s0.isHolding then
    ({ s0 with isHolding := false, activeTouches := s0.activeTouches.erase id },
      [Emit.holdEnd])
  else
    if now - s0.lastTap < doubleTapThreshold ∧
        sqrtLtQ (getDistanceSq x y s0.lastTapX s0.lastTapY) doubleTapDistance = true then
      let r := handleDoubleTap s0 now
      ({ r.1 with lastTap := 0, activeTouches := r.1.activeTouches.erase id }, r.2)
    else
      ({ s0 with lastTap := now, lastTapX := x, lastTapY := y,
                 activeTouches := s0.activeTouches.erase id }, [Emit.tap x y])

/-- TouchControls.handleTouchEnd: guarded only by `enabled`, then
delegates the first changed touch to `endInteraction`. -/
def handleTouchEnd (s : State) (x y : ℚ) (id : ℕ) (now : ℤ) : State × List Emit :=
  if s.enabled then endInteraction s x y id now else (s, [])

theorem endInteraction_emits_tap (s : State) (x y : ℚ) (id : ℕ) (now : ℤ)
    (hen : s.enabled = true) (hh : s.isHolding = false)
    (hlate : s.lastTap + doubleTapThreshold ≤ now) :
    (handleTouchEnd s x y id now).2 = [Emit.tap x y] := by
  unfold handleTouchEnd endInteraction
  have h1 : ¬(({ s with holdTimerActive := false } : State).isHolding = true) := by
    have h0 : ({ s with holdTimerActive := false } : State).isHolding = false := hh
    rw [h0]
    exact Bool.false_ne_true
  have h2 : ¬(now - ({ s with holdTimerActive := false } : State).lastTap <
      doubleTapThreshold ∧
      sqrtLtQ (getDistanceSq x y ({ s with holdTimerActive := false } : State).lastTapX
        ({ s with holdTimerActive := false } : State).lastTapY) doubleTapDistance = true) := by
    rintro ⟨hd, -⟩
    have hd' : now - s.lastTap < doubleTapThreshold := hd
    omega
  rw [if_pos hen, if_neg h1, if_neg h2]

/-- C8 is refuted by the code: a pointer release whose id has no matching
prior press — here because the press was cancelled, which cleared
`activeTouches` — still reaches the single-tap branch of `endInteraction`
and invokes `onTap`, because neither `handleTouchEnd` nor
`endInteraction` consults `activeTouches` before emitting. -/
theorem cancelled_release_emits_tap :
    let s0 : State := ⟨true, 0, 0, 0, 0, 0, false, false, 0, [], false⟩
    let s2 := cancelInteraction (startInteraction s0 100 100 7)
    7 ∉ s2.activeTouches ∧
    (handleTouchEnd s2 100 100 7 5000).2 = [Emit.tap 100 100] := by
  intro s0 s2
  constructor
  · show 7 ∉ ([] : List ℕ)
    simp
  · exact endInteraction_emits_tap s2 100 100 7 5000 rfl rfl (by show (0 : ℤ) + 300 ≤ 5000; norm_num)

end TouchControls
